import Mathlib

/-!
# Verification of the ANProto slide-deck markdown renderers (`server.ts`)

This file is a shallow embedding, over `List Char`, of the two pure
renderer functions of the repository's `server.ts`:

* `parseTable`   — the pipe-table extractor (source lines 36–90), and
* `renderRisksColumns` / `parseRisksMarkdown` / `formatInline` /
  `escapeHtml` — the risks renderers (source lines 27–34, 92–190).

JavaScript strings are modelled as `List Char`.  `String.prototype.trim`,
the `\s` regex class and the regex dot are modelled by the predicates
`jsWs` and `isDot` below, following the ECMAScript definitions
(WhiteSpace ∪ LineTerminator for `trim`/`\s`; everything except line
terminators for `.`).

One genuinely semantic point of JavaScript is modelled explicitly: the
expression `title in sections` (source line 158) uses the `in` operator,
which consults the prototype chain, so it is `true` not only for the two
own keys `"Actors"`/`"Methods"` of the object literal
`{ Actors: [], Methods: [] }` but also for every property inherited from
`Object.prototype` (`"toString"`, `"valueOf"`, …).  When such a title
becomes the current section and an item is subsequently pushed,
`sections[current].push(item)` evaluates `.push` on an inherited
non-array value, which is `undefined`, and the call raises a `TypeError`.
The embedding models a raised `TypeError` as `none` (the function never
returns JavaScript `null`, so `Option` is unambiguous here).
-/

set_option maxRecDepth 100000

namespace Anproto

/-- Convert a Lean string literal to the `List Char` representation. -/
def str (s : String) : List Char := s.toList

/-- Whitespace as understood by JavaScript `String.prototype.trim` and the
regex class `\s`: ECMAScript WhiteSpace (TAB, VT, FF, SP, NBSP, ZWNBSP and
the Unicode Space_Separator category) together with the LineTerminators
(LF, CR, LS, PS). -/
def jsWs (c : Char) : Bool :=
  c == ' ' || c == '\t' || c == '\n' || c == '\r' ||
  c == '\u000B' || c == '\u000C' || c == '\u00A0' || c == '\uFEFF' ||
  c == '\u1680' || ('\u2000' ≤ c && c ≤ '\u200A') ||
  c == '\u2028' || c == '\u2029' || c == '\u202F' || c == '\u205F' ||
  c == '\u3000'

/-- Characters matched by the regex `.` (dot): everything except the four
ECMAScript LineTerminator characters. -/
def isDot (c : Char) : Bool :=
  !(c == '\n' || c == '\r' || c == '\u2028' || c == '\u2029')

/-- JavaScript `String.prototype.trim`: drop leading and trailing `jsWs`. -/
def jsTrim (s : List Char) : List Char :=
  ((s.dropWhile jsWs).reverse.dropWhile jsWs).reverse

/-- Prepend a character to the first line of a line list. -/
def consHead (c : Char) : List (List Char) → List (List Char)
  | [] => [[c]]
  | l :: ls => (c :: l) :: ls

/-- `markdown.split(/\r?\n/)`: split on `\n`, absorbing a directly
preceding `\r`; a lone `\r` stays in its line. -/
def splitLines : List Char → List (List Char)
  | [] => [[]]
  | '\n' :: rest => [] :: splitLines rest
  | '\r' :: '\n' :: rest => [] :: splitLines rest
  | c :: rest => consHead c (splitLines rest)

/-- Join lines with `'\n'`; a left inverse of `splitLines` on lists of
newline-free lines (`splitLines_joinLines` below). -/
def joinLines : List (List Char) → List Char
  | [] => []
  | [l] => l
  | l :: ls => l ++ '\n' :: joinLines ls

/-- `s.split("|")`. -/
def splitOnPipe : List Char → List (List Char)
  | [] => [[]]
  | c :: rest =>
    if c = '|' then [] :: splitOnPipe rest
    else consHead c (splitOnPipe rest)

/-- `array.join("")`. -/
def joinL : List (List Char) → List Char
  | [] => []
  | l :: ls => l ++ joinL ls

/-- `pat` occurs as a contiguous substring of `s`. -/
def containsSub (pat : List Char) : List Char → Bool
  | [] => pat.isEmpty
  | c :: rest => pat.isPrefixOf (c :: rest) || containsSub pat rest

/-- A line free of `'\n'` and `'\r'` (survives `splitLines` unchanged). -/
def noCRLF (l : List Char) : Bool :=
  l.all fun c => !(c == '\n' || c == '\r')

/-! ## `escapeHtml` (source lines 27–34)

The source is a chain of five global single-character `.replace` calls;
`replaceChar` models one such call. -/

/-- One global `.replace(/c/g, rep)` where the pattern is a single
character. -/
def replaceChar (t : Char) (rep : List Char) : List Char → List Char
  | [] => []
  | c :: rest => (if c = t then rep else [c]) ++ replaceChar t rep rest

/-- `escapeHtml`: the source's five chained replacements, in source
order (`&`, `<`, `>`, `"`, `'`). -/
def escapeHtml (s : List Char) : List Char :=
  replaceChar '\'' (str "&#39;")
    (replaceChar '"' (str "&quot;")
      (replaceChar '>' (str "&gt;")
        (replaceChar '<' (str "&lt;")
          (replaceChar '&' (str "&amp;") s))))

/-! ## `parseTable` (source lines 36–90) -/

/-- Own property names of `Object.prototype`, visible through the
prototype chain to both the `in` operator and bracket property reads on
plain object literals. -/
def objectProtoProps : List (List Char) :=
  [str "constructor", str "hasOwnProperty", str "isPrototypeOf",
   str "propertyIsEnumerable", str "toLocaleString", str "toString",
   str "valueOf", str "__defineGetter__", str "__defineSetter__",
   str "__lookupGetter__", str "__lookupSetter__", str "__proto__"]

/-- `logoMap[c]` (source lines 37–44).  The six literal keys return their
logo records.  For a cell whose text is an inherited `Object.prototype`
property name, the bracket read yields the inherited (truthy, non-record)
value, so the code takes the logo branch and interpolates
`logo.src`/`logo.alt` — both `undefined` — as the string `"undefined"`. -/
def logoLookup (c : List Char) : Option (List Char × List Char) :=
  if c = str "SSB" then some (str "/hermies-256.png", str "SSB logo")
  else if c = str "ActivityPub" then some (str "/activitypub-logo.png", str "ActivityPub logo")
  else if c = str "ANProto" then some (str "/anproto-logo.png", str "ANProto logo")
  else if c = str "ATProto" then some (str "/atproto.jpeg", str "ATProto logo")
  else if c = str "Nostr" then some (str "/nostr.png", str "Nostr logo")
  else if c = str "Farcaster" then some (str "/farcaster.jpeg", str "Farcaster logo")
  else if objectProtoProps.contains c then some (str "undefined", str "undefined")
  else none

/-- `line.split("|").map((c) => c.trim()).filter(Boolean)` (source lines
53, 54, 62). -/
def cells (s : List Char) : List (List Char) :=
  ((splitOnPipe s).map jsTrim).filter fun c => !c.isEmpty

/-- `/^\|?\s*[:\-]+/.test(divider)` (source line 51): an optional leading
pipe, then optional whitespace, then at least one `:` or `-`; the end of
the line is unconstrained because `test` is unanchored on the right. -/
def dividerShape (s : List Char) : Bool :=
  let s1 := match s with
    | '|' :: rest => rest
    | _ => s
  match s1.dropWhile jsWs with
  | c :: _ => c == ':' || c == '-'
  | [] => false

/-- One header cell (source lines 67–82): plain `<th>` for unknown
labels, the logo template-literal block otherwise. -/
def renderHeaderCell (c : List Char) : List Char :=
  match logoLookup c with
  | none => str "<th>" ++ escapeHtml c ++ str "</th>"
  | some (src, alt) =>
    str "\n          <th>\n            <div class=\"table-head\">\n              <img class=\"table-logo\" src=\"" ++
    src ++ str "\" alt=\"" ++ alt ++
    str "\" />\n              <span>" ++ escapeHtml c ++
    str "</span>\n            </div>\n          </th>\n        "

/-- One body row (source line 84). -/
def renderRow (row : List (List Char)) : List Char :=
  str "<tr>" ++ joinL (row.map fun c => str "<td>" ++ escapeHtml c ++ str "</td>") ++ str "</tr>"

/-- The returned table markup (source line 86). -/
def tableHtml (headerCells : List (List Char)) (rows : List (List (List Char))) : List Char :=
  str "<table><thead><tr>" ++ joinL (headerCells.map renderHeaderCell) ++
  str "</tr></thead><tbody>" ++ joinL (rows.map renderRow) ++ str "</tbody></table>"

/-- The body-row loop (source lines 57–65): consume lines while each one
contains a pipe and yields at least one cell; stop at the first that
does not. -/
def scanRows : List (List Char) → List (List (List Char))
  | [] => []
  | l :: rest =>
    let rowLine := jsTrim l
    if rowLine.contains '|' then
      let rowCells := cells rowLine
      if rowCells.isEmpty then [] else rowCells :: scanRows rest
    else []

/-- The header/divider pair scan (source lines 47–87): the first
argument is line `i`, the second the lines from `i + 1` on.  For each
adjacent pair, `continue` unless both lines contain a pipe, the divider
passes `dividerShape`, and both cell lists are non-empty; on the first
qualifying pair, render and return. -/
def parseTablePairs : List Char → List (List Char) → Option (List Char)
  | _, [] => none
  | l1, l2 :: rest =>
    let header := jsTrim l1
    let divider := jsTrim l2
    if header.contains '|' && divider.contains '|' then
      if dividerShape divider then
        let headerCells := cells header
        let dividerCells := cells divider
        if headerCells.isEmpty || dividerCells.isEmpty then parseTablePairs l2 rest
        else some (tableHtml headerCells (scanRows rest))
      else parseTablePairs l2 rest
    else parseTablePairs l2 rest

/-- `parseTable` (source lines 36–90); `none` models the returned
`null`.  (`splitLines` never returns `[]`, so the first match arm is
unreachable.) -/
def parseTable (markdown : List Char) : Option (List Char) :=
  match splitLines markdown with
  | [] => none
  | l1 :: rest => parseTablePairs l1 rest

/-- A line acceptable to the body-row loop: pipe present and at least one
cell after split/trim/filter. -/
def rowOk (l : List Char) : Bool :=
  (jsTrim l).contains '|' && !(cells (jsTrim l)).isEmpty

/-- A header/divider line pair that the pair scan accepts. -/
def qualifies (a b : List Char) : Bool :=
  (jsTrim a).contains '|' && (jsTrim b).contains '|' && dividerShape (jsTrim b) &&
  !(cells (jsTrim a)).isEmpty && !(cells (jsTrim b)).isEmpty

/-! ## `formatInline` (source lines 92–95)

`escaped.replace(/\*\*(.+?)\*\*/g, "<strong>$1</strong>")`: a left-to-right
scan; at each position where `**` is followed by a shortest non-empty run
of dot characters and another `**`, the span is replaced; otherwise the
scan advances one character. -/

/-- Does the string start with the closing marker `**`?  Returns the
remainder after it. -/
def startsClose : List Char → Option (List Char)
  | d :: e :: rest2 => if d = '*' ∧ e = '*' then some rest2 else none
  | _ => none

/-- Find the non-greedy close for a bold span: split `s` as
`content ++ "**" ++ rest` with `content` a non-empty run of dot
characters of minimal length. -/
def findClose (s : List Char) : Option (List Char × List Char) :=
  match s with
  | [] => none
  | c :: rest =>
    if isDot c then
      match startsClose rest with
      | some rest2 => some ([c], rest2)
      | none =>
        match findClose rest with
        | some (content, rest3) => some (c :: content, rest3)
        | none => none
    else none

theorem startsClose_spec : ∀ s rest2, startsClose s = some rest2 →
    s = '*' :: '*' :: rest2 := by
  intro s rest2 h
  match s with
  | [] => simp [startsClose] at h
  | [d] => simp [startsClose] at h
  | d :: e :: r =>
    simp only [startsClose] at h
    split at h
    · rename_i hde
      obtain ⟨h1, h2⟩ := hde
      cases h
      subst h1 h2
      rfl
    · cases h

theorem findClose_spec : ∀ s content rest2, findClose s = some (content, rest2) →
    s = content ++ '*' :: '*' :: rest2 := by
  intro s
  induction s with
  | nil => intro content rest2 h; simp [findClose] at h
  | cons c rest ih =>
    intro content rest2 h
    simp only [findClose] at h
    split at h
    · split at h
      · rename_i heq
        cases h
        rw [startsClose_spec _ _ heq]
        rfl
      · split at h
        · rename_i heq
          cases h
          rw [ih _ _ heq]
          rfl
        · cases h
    · cases h

theorem findClose_length (s content rest2 : List Char)
    (h : findClose s = some (content, rest2)) : rest2.length < s.length := by
  have hs := findClose_spec s content rest2 h
  subst hs
  simp [List.length_append]
  omega

/-- Attempt the pattern `\*\*(.+?)\*\*` at the current position:
succeed when `**` starts here and a non-greedy close follows, yielding
the captured content and the remainder after the match. -/
def boldAt : List Char → Option (List Char × List Char)
  | c :: d :: rest1 => if c = '*' ∧ d = '*' then findClose rest1 else none
  | _ => none

/-- The global non-greedy replacement scan, fuelled so that the
recursion is structural (every recursive call strictly shortens the
string, so `fuel = s.length` always suffices; see `scanBold`).  At each
position: on a match, emit the replacement and continue after the match;
otherwise emit one character and advance, as the `g`-flagged regex
engine does. -/
def scanBoldAux : Nat → List Char → List Char
  | 0, s => s
  | _ + 1, [] => []
  | fuel + 1, c :: rest =>
    match boldAt (c :: rest) with
    | some (content, rest2) =>
      str "<strong>" ++ content ++ str "</strong>" ++ scanBoldAux fuel rest2
    | none => c :: scanBoldAux fuel rest

/-- The global non-greedy replacement pass of `formatInline`:
`escaped.replace(/\*\*(.+?)\*\*/g, "<strong>$1</strong>")`. -/
def scanBold (s : List Char) : List Char :=
  scanBoldAux s.length s

/-- `formatInline` (source lines 92–95): escape first, then replace
`**text**` spans. -/
def formatInline (text : List Char) : List Char :=
  scanBold (escapeHtml text)

/-! ## `parseRisksMarkdown` (source lines 97–145) -/

/-- `trimmed.match(/^(#{1,6})\s+(.+)$/)` (source line 118).  The match
succeeds exactly when the maximal leading run of `#` has length 1–6 and
is followed by a whitespace character; backtracking cannot shorten the
`#` group (the next character would be `#`, not `\s`), `\s+` is greedy,
and `(.+)$` then requires the remainder after the maximal whitespace run
to be non-empty and free of line terminators. -/
def headingMatch (s : List Char) : Option (Nat × List Char) :=
  let hashes := s.takeWhile fun c => c == '#'
  let rest := s.dropWhile fun c => c == '#'
  if 1 ≤ hashes.length ∧ hashes.length ≤ 6 then
    match rest with
    | c :: _ =>
      if jsWs c then
        let content := rest.dropWhile jsWs
        if content ≠ [] ∧ content.all isDot then some (hashes.length, content) else none
      else none
    | [] => none
  else none

/-- `trimmed.match(/^[-*]\s+(.+)$/)` (source lines 128, 162). -/
def bulletMatch (s : List Char) : Option (List Char) :=
  match s with
  | c :: rest =>
    if c = '-' ∨ c = '*' then
      match rest with
      | d :: _ =>
        if jsWs d then
          let content := rest.dropWhile jsWs
          if content ≠ [] ∧ content.all isDot then some content else none
        else none
      | [] => none
    else none
  | [] => none

/-- The flat renderer's line loop (source lines 110–143), with the
`listOpen` and `listMode` flags threaded explicitly; the final `[]` case
performs the closing `closeList()` of source line 143. -/
def parseRisksLines : List (List Char) → Bool → Bool → List Char
  | [], lo, _ => if lo then str "</ul>" else []
  | line :: rest, lo, lm =>
    let trimmed := jsTrim line
    if trimmed.isEmpty then
      (if lo then str "</ul>" else []) ++ parseRisksLines rest false false
    else
      match headingMatch trimmed with
      | some (level, content) =>
        (if lo then str "</ul>" else []) ++
        str "<h" ++ Nat.toDigits 10 level ++ str ">" ++ formatInline content ++
        str "</h" ++ Nat.toDigits 10 level ++ str ">" ++
        parseRisksLines rest false (decide (3 ≤ level))
      | none =>
        let bullet := bulletMatch trimmed
        let listItem := match bullet with
          | some b => b
          | none => trimmed
        if lm || bullet.isSome then
          (if lo then [] else str "<ul>") ++ str "<li>" ++ formatInline listItem ++
          str "</li>" ++ parseRisksLines rest true lm
        else
          (if lo then str "</ul>" else []) ++ str "<p>" ++ formatInline trimmed ++
          str "</p>" ++ parseRisksLines rest false lm

/-- `parseRisksMarkdown` (source lines 97–145). -/
def parseRisksMarkdown (markdown : List Char) : List Char :=
  parseRisksLines (splitLines markdown) false false

/-! ## `renderRisksColumns` (source lines 147–190) -/

/-- `trimmed.match(/^###\s+(.+)$/)` (source line 155): exactly three
leading `#` (a fourth `#` would make `\s+` fail with no way to
backtrack), then whitespace, then dot-only non-empty content. -/
def colHeadingMatch (s : List Char) : Option (List Char) :=
  let hashes := s.takeWhile fun c => c == '#'
  let rest := s.dropWhile fun c => c == '#'
  if hashes.length = 3 then
    match rest with
    | c :: _ =>
      if jsWs c then
        let content := rest.dropWhile jsWs
        if content ≠ [] ∧ content.all isDot then some content else none
      else none
    | [] => none
  else none

/-- `title in sections` (source line 158) for the object literal
`{ Actors: [], Methods: [] }`: true for the two own keys and for every
property inherited from `Object.prototype`. -/
def inSections (title : List Char) : Bool :=
  title = str "Actors" || title = str "Methods" || objectProtoProps.contains title

/-- The mutable state of the column scan: `current` holds the JavaScript
value of `current` (a property name or `null`), and the two arrays of the
`sections` record. -/
structure ColState where
  current : Option (List Char)
  actors : List (List Char)
  methods : List (List Char)
deriving DecidableEq

/-- One iteration of the column scan loop (source lines 151–167).
`none` models a raised `TypeError`: it occurs exactly when an item is
pushed while `current` is an inherited `Object.prototype` property name,
since `sections[current]` is then a non-array and `.push` is
`undefined`. -/
def colLine (st : ColState) (line : List Char) : Option ColState :=
  let trimmed := jsTrim line
  if trimmed.isEmpty then some st
  else
    match colHeadingMatch trimmed with
    | some t0 =>
      let title := jsTrim t0
      some { st with current := if inSections title then some title else none }
    | none =>
      let item := match bulletMatch trimmed with
        | some b => jsTrim b
        | none => trimmed
      match st.current with
      | none => some st
      | some cur =>
        if item.isEmpty then some st
        else if cur = str "Actors" then some { st with actors := st.actors ++ [item] }
        else if cur = str "Methods" then some { st with methods := st.methods ++ [item] }
        else none

/-- The column scan over all lines, propagating a raised `TypeError`. -/
def colScan : List (List Char) → ColState → Option ColState
  | [], st => some st
  | l :: rest, st =>
    match colLine st l with
    | none => none
    | some st2 => colScan rest st2

/-- `renderList` (source lines 175–176): plain-escaped `<li>` items, no
bold expansion. -/
def renderList (items : List (List Char)) : List Char :=
  joinL (items.map fun item => str "<li>" ++ escapeHtml item ++ str "</li>")

/-- The two-panel grid template literal (source lines 178–189), with its
exact whitespace. -/
def gridHtml (actors methods : List (List Char)) : List Char :=
  str "\n    <div class=\"risks-grid\">\n      <div>\n        <h3>Actors</h3>\n        <ul>" ++
  renderList actors ++
  str "</ul>\n      </div>\n      <div>\n        <h3>Methods</h3>\n        <ul>" ++
  renderList methods ++
  str "</ul>\n      </div>\n    </div>\n  "

/-- The fallback wrapper (source line 172). -/
def fallbackHtml (markdown : List Char) : List Char :=
  str "<div class=\"risks-fallback\">" ++ parseRisksMarkdown markdown ++ str "</div>"

/-- `renderRisksColumns` (source lines 147–190); `none` models a raised
`TypeError` escaping the function. -/
def renderRisksColumns (markdown : List Char) : Option (List Char) :=
  match colScan (splitLines markdown) ⟨none, [], []⟩ with
  | none => none
  | some st =>
    if st.actors.isEmpty || st.methods.isEmpty then some (fallbackHtml markdown)
    else some (gridHtml st.actors st.methods)

/-! ## Statement-side predicates -/

/-- A well-behaved item or title string for constructed risks documents:
non-empty, free of line terminators, and with non-whitespace first and
last characters (so trimming is the identity on it). -/
def itemOk (x : List Char) : Bool :=
  !x.isEmpty && x.all isDot && !jsWs (x.headD 'a') && !jsWs (x.reverse.headD 'a')

/-! ## Lemmas about line splitting -/

theorem splitLines_cons4 (c : Char) (rest : List Char) (h1 : c ≠ '\n')
    (h2 : ∀ r1, c = '\r' → rest ≠ '\n' :: r1) :
    splitLines (c :: rest) = consHead c (splitLines rest) := by
  rw [splitLines.eq_def]
  split <;> simp_all

theorem splitLines_cons (c : Char) (rest : List Char) (h1 : c ≠ '\n') (h2 : c ≠ '\r') :
    splitLines (c :: rest) = consHead c (splitLines rest) :=
  splitLines_cons4 c rest h1 (fun _ hc => absurd hc h2)

theorem splitLines_noCRLF (l : List Char) (h : noCRLF l = true) : splitLines l = [l] := by
  induction l with
  | nil => rfl
  | cons c rest ih =>
    simp only [noCRLF, List.all_cons, Bool.and_eq_true] at h
    obtain ⟨hc, hrest⟩ := h
    simp only [Bool.not_eq_true', Bool.or_eq_false_iff, beq_eq_false_iff_ne] at hc
    rw [splitLines_cons c rest hc.1 hc.2, ih hrest]
    rfl

theorem splitLines_append (l rest : List Char) (h : noCRLF l = true) :
    splitLines (l ++ '\n' :: rest) = l :: splitLines rest := by
  induction l with
  | nil => rfl
  | cons c l' ih =>
    simp only [noCRLF, List.all_cons, Bool.and_eq_true] at h
    obtain ⟨hc, hrest⟩ := h
    simp only [Bool.not_eq_true', Bool.or_eq_false_iff, beq_eq_false_iff_ne] at hc
    rw [List.cons_append, splitLines_cons c _ hc.1 hc.2, ih hrest]
    rfl

theorem splitLines_joinLines : ∀ ls : List (List Char), ls ≠ [] →
    (∀ l ∈ ls, noCRLF l = true) → splitLines (joinLines ls) = ls := by
  intro ls
  induction ls with
  | nil => intro h; exact absurd rfl h
  | cons l ls' ih =>
    intro _ hall
    match ls' with
    | [] => exact splitLines_noCRLF l (hall l (by simp))
    | l2 :: ls'' =>
      show splitLines (l ++ '\n' :: joinLines (l2 :: ls'')) = _
      rw [splitLines_append _ _ (hall l (by simp))]
      rw [ih (by simp) (fun x hx => hall x (by simp [hx]))]

theorem splitLines_ne_nil : ∀ s : List Char, splitLines s ≠ [] := by
  intro s
  induction s using splitLines.induct with
  | case1 => simp [splitLines]
  | case2 rest ih => simp [splitLines]
  | case3 rest ih => simp [splitLines]
  | case4 c rest h1 h2 ih =>
    rw [splitLines_cons4 c rest h1 (fun r1 hc hr => h2 r1 hc hr)]
    cases splitLines rest <;> simp [consHead]

/-- Every character of every line produced by `splitLines` occurs in the
input string. -/
theorem splitLines_chars : ∀ (s : List Char), ∀ l ∈ splitLines s, ∀ c ∈ l, c ∈ s := by
  intro s
  induction s using splitLines.induct with
  | case1 =>
    intro l hl c hc
    simp only [splitLines, List.mem_singleton] at hl
    subst hl; simp at hc
  | case2 rest ih =>
    intro l hl c hc
    simp only [splitLines, List.mem_cons] at hl
    rcases hl with h | h
    · subst h; simp at hc
    · exact List.mem_cons_of_mem _ (ih l h c hc)
  | case3 rest ih =>
    intro l hl c hc
    simp only [splitLines, List.mem_cons] at hl
    rcases hl with h | h
    · subst h; simp at hc
    · exact List.mem_cons_of_mem _ (List.mem_cons_of_mem _ (ih l h c hc))
  | case4 a rest h1 h2 ih =>
    intro l hl c hc
    rw [splitLines_cons4 a rest h1 (fun r1 hc' hr => h2 r1 hc' hr)] at hl
    cases hq : splitLines rest with
    | nil => exact absurd hq (splitLines_ne_nil rest)
    | cons l0 ls =>
      rw [hq] at hl
      simp only [consHead, List.mem_cons] at hl
      rcases hl with h | h
      · subst h
        rcases List.mem_cons.mp hc with h' | h'
        · simp [h']
        · exact List.mem_cons_of_mem _ (ih l0 (by simp [hq]) c h')
      · exact List.mem_cons_of_mem _ (ih l (by simp [hq, h]) c hc)

/-- Characters of a trimmed string occur in the original string. -/
theorem mem_jsTrim {c : Char} {l : List Char} (h : c ∈ jsTrim l) : c ∈ l := by
  unfold jsTrim at h
  rw [List.mem_reverse] at h
  have h2 := (List.dropWhile_sublist (l := (l.dropWhile jsWs).reverse) (p := jsWs)).mem h
  rw [List.mem_reverse] at h2
  exact (List.dropWhile_sublist (l := l) (p := jsWs)).mem h2

/-! ## Claim C5: a failed divider-shape test skips to the next index -/

/-- C5: in the pair scan, a candidate divider whose trimmed form fails
the `^\|?\s*[:\-]+` shape test disqualifies the pair — even if it
contains pipes — and scanning continues at the next line index. -/
theorem divider_shape_disqualifies (l1 l2 : List Char) (rest : List (List Char))
    (h : dividerShape (jsTrim l2) = false) :
    parseTablePairs l1 (l2 :: rest) = parseTablePairs l2 rest := by
  by_cases h1 : (jsTrim l1).contains '|' <;> by_cases h2 : (jsTrim l2).contains '|' <;>
    simp [parseTablePairs, h, h1, h2]

/-- Witness for C5 at the spec's own example: `| foo | bar |` followed by
`| baz | qux |` is not a table (the second line contains pipes but fails
the divider shape), and the whole two-line document yields `null`. -/
theorem divider_shape_disqualifies_witness :
    dividerShape (jsTrim (str "| baz | qux |")) = false
    ∧ parseTablePairs (str "| foo | bar |") [str "| baz | qux |"] =
        parseTablePairs (str "| baz | qux |") []
    ∧ parseTable (str "| foo | bar |\n| baz | qux |") = none :=
  ⟨by decide,
   divider_shape_disqualifies (str "| foo | bar |") (str "| baz | qux |") [] (by decide),
   by decide⟩

/-! ## Claim C7: only the first qualifying pair; `null` iff none qualifies -/

/-- A non-qualifying pair is skipped: scanning continues at the next
line index. -/
theorem parseTablePairs_step_no (l1 l2 : List Char) (rest : List (List Char))
    (hq : qualifies l1 l2 = false) :
    parseTablePairs l1 (l2 :: rest) = parseTablePairs l2 rest := by
  simp only [qualifies] at hq
  simp only [parseTablePairs]
  cases hc1 : (jsTrim l1).contains '|' <;> cases hc2 : (jsTrim l2).contains '|' <;>
    cases hc3 : dividerShape (jsTrim l2) <;> cases hc4 : (cells (jsTrim l1)).isEmpty <;>
    cases hc5 : (cells (jsTrim l2)).isEmpty <;>
      simp_all

/-- A qualifying pair is rendered at once from that pair and the lines
after it. -/
theorem parseTablePairs_step_yes (l1 l2 : List Char) (rest : List (List Char))
    (hq : qualifies l1 l2 = true) :
    parseTablePairs l1 (l2 :: rest) = some (tableHtml (cells (jsTrim l1)) (scanRows rest)) := by
  simp only [qualifies, Bool.and_eq_true, Bool.not_eq_true'] at hq
  obtain ⟨⟨⟨⟨h1, h2⟩, h3⟩, h4⟩, h5⟩ := hq
  simp only [parseTablePairs, h1, h2, h3, h4, h5]
  simp

theorem parseTablePairs_none : ∀ (ls : List (List Char)) (l1 : List Char),
    parseTablePairs l1 ls = none ↔
      ((l1 :: ls).zip ls).all (fun p => !qualifies p.1 p.2) = true := by
  intro ls
  induction ls with
  | nil => intro l1; simp [parseTablePairs]
  | cons l2 rest ih =>
    intro l1
    by_cases hq : qualifies l1 l2 = true
    · rw [parseTablePairs_step_yes l1 l2 rest hq]
      simp [List.zip_cons_cons, List.all_cons, hq]
    · have hq' : qualifies l1 l2 = false := by rwa [Bool.not_eq_true] at hq
      rw [parseTablePairs_step_no l1 l2 rest hq', ih l2]
      simp [List.zip_cons_cons, List.all_cons, hq']

theorem parseTable_none_iff (md : List Char) : parseTable md = none ↔
    ((splitLines md).zip (splitLines md).tail).all (fun p => !qualifies p.1 p.2) = true := by
  unfold parseTable
  cases hq : splitLines md with
  | nil => exact absurd hq (splitLines_ne_nil md)
  | cons l1 rest => exact parseTablePairs_none rest l1

/-- C7: (a) a document containing no pipe character yields the
"not found" sentinel; (b) `parseTable` returns `null` exactly when no
adjacent line pair in the whole document qualifies; (c) once a
qualifying pair is found, the result is rendered from that pair and the
lines after it — scanning never continues to a later table. -/
theorem first_table_or_none :
    (∀ md : List Char, '|' ∉ md → parseTable md = none)
    ∧ (∀ md : List Char, parseTable md = none ↔
        ((splitLines md).zip (splitLines md).tail).all (fun p => !qualifies p.1 p.2) = true)
    ∧ (∀ (l1 l2 : List Char) (rest : List (List Char)), qualifies l1 l2 = true →
        parseTablePairs l1 (l2 :: rest) =
          some (tableHtml (cells (jsTrim l1)) (scanRows rest))) := by
  refine ⟨?_, fun md => parseTable_none_iff md, fun l1 l2 rest hq =>
    parseTablePairs_step_yes l1 l2 rest hq⟩
  intro md hmd
  rw [parseTable_none_iff, List.all_eq_true]
  intro p hp
  obtain ⟨a, b⟩ := p
  have hmem := List.of_mem_zip hp
  have hnpipe : '|' ∉ jsTrim a := fun hmem' =>
    hmd (splitLines_chars md a hmem.1 '|' (mem_jsTrim hmem'))
  have hnp : (jsTrim a).contains '|' = false := by
    by_contra hcon
    rw [Bool.not_eq_false] at hcon
    exact hnpipe (List.elem_iff.mp hcon)
  simp [qualifies, hnp, hnpipe]

/-- Witness for C7: a pipe-free document yields `null`; a qualifying
first pair is rendered immediately even though a second table follows. -/
theorem first_table_or_none_witness :
    parseTable (str "no pipes here\njust text") = none
    ∧ parseTablePairs (str "| A |") [str "| - |", str "| 1 |", [], str "| B |", str "| - |"] =
        some (tableHtml (cells (jsTrim (str "| A |")))
          (scanRows [str "| 1 |", [], str "| B |", str "| - |"])) :=
  ⟨first_table_or_none.1 (str "no pipes here\njust text") (by decide),
   first_table_or_none.2.2 (str "| A |") (str "| - |")
     [str "| 1 |", [], str "| B |", str "| - |"] (by decide)⟩

/-! ## Claim C6: well-formed tables render all rows in order, as-is -/

theorem scanRows_stop (suffix : List (List Char)) (hsuf : rowOk (suffix.headD []) = false) :
    scanRows suffix = [] := by
  cases suffix with
  | nil => rfl
  | cons t ts =>
    simp only [List.headD_cons] at hsuf
    simp only [scanRows]
    cases hc : (jsTrim t).contains '|' <;> cases he : (cells (jsTrim t)).isEmpty <;>
      simp_all [rowOk]

theorem scanRows_run (rs suffix : List (List Char)) (hrs : ∀ r ∈ rs, rowOk r = true)
    (hsuf : rowOk (suffix.headD []) = false) :
    scanRows (rs ++ suffix) = rs.map (fun r => cells (jsTrim r)) := by
  induction rs with
  | nil => simpa using scanRows_stop suffix hsuf
  | cons r rs' ih =>
    have hr := hrs r (by simp)
    simp only [rowOk, Bool.and_eq_true, Bool.not_eq_true'] at hr
    simp only [List.cons_append, scanRows, hr.1, hr.2]
    simp [ih (fun x hx => hrs x (by simp [hx]))]

/-- C6: a document that is a header line, a qualifying divider, `N`
consecutive data-row lines and then a non-row suffix renders to a table
built from exactly the filtered header cells and the `N` rows in
original order, each row's cells kept as-is (`cells (jsTrim r)`, with no
padding or truncation to the header width); the body-row count equals
`N`. -/
theorem wellformed_table_rendered (hl dl : List Char) (rs suffix : List (List Char))
    (hnl : ∀ l ∈ hl :: dl :: (rs ++ suffix), noCRLF l = true)
    (hq : qualifies hl dl = true)
    (hrs : ∀ r ∈ rs, rowOk r = true)
    (hsuf : rowOk (suffix.headD []) = false) :
    parseTable (joinLines (hl :: dl :: (rs ++ suffix))) =
      some (tableHtml (cells (jsTrim hl)) (rs.map fun r => cells (jsTrim r)))
    ∧ (rs.map fun r => cells (jsTrim r)).length = rs.length := by
  constructor
  · unfold parseTable
    rw [splitLines_joinLines _ (by simp) hnl]
    show parseTablePairs hl (dl :: (rs ++ suffix)) = _
    rw [parseTablePairs_step_yes hl dl _ hq]
    rw [scanRows_run rs suffix hrs hsuf]
  · simp

/-- Witness for C6: a two-column table with one full row and one short
row (kept as-is), followed by a non-table line. -/
theorem wellformed_table_rendered_witness :
    parseTable (joinLines [str "| A | B |", str "| --- | --- |", str "| 1 | 2 |",
        str "| 3 |", str "end"]) =
      some (tableHtml (cells (jsTrim (str "| A | B |")))
        ([str "| 1 | 2 |", str "| 3 |"].map fun r => cells (jsTrim r)))
    ∧ ([str "| 1 | 2 |", str "| 3 |"].map fun r => cells (jsTrim r)).length = 2 :=
  wellformed_table_rendered (str "| A | B |") (str "| --- | --- |")
    [str "| 1 | 2 |", str "| 3 |"] [str "end"] (by decide) (by decide) (by decide) (by decide)

/-! ## Claim C8: escape-then-bold inline formatting -/

/-- The per-character action of the five chained replacements. -/
def escChar (c : Char) : List Char :=
  if c = '&' then str "&amp;"
  else if c = '<' then str "&lt;"
  else if c = '>' then str "&gt;"
  else if c = '"' then str "&quot;"
  else if c = '\'' then str "&#39;"
  else [c]

theorem replaceChar_append (t : Char) (rep a b : List Char) :
    replaceChar t rep (a ++ b) = replaceChar t rep a ++ replaceChar t rep b := by
  induction a with
  | nil => rfl
  | cons c a' ih => simp [replaceChar, ih]

theorem escapeHtml_cons (c : Char) (rest : List Char) :
    escapeHtml (c :: rest) = escChar c ++ escapeHtml rest := by
  unfold escapeHtml escChar
  by_cases h1 : c = '&'
  · subst h1; simp only [replaceChar, replaceChar_append]; rfl
  · by_cases h2 : c = '<'
    · subst h2; simp only [replaceChar, replaceChar_append]; rfl
    · by_cases h3 : c = '>'
      · subst h3; simp only [replaceChar, replaceChar_append]; rfl
      · by_cases h4 : c = '"'
        · subst h4; simp only [replaceChar, replaceChar_append]; rfl
        · by_cases h5 : c = '\''
          · subst h5; simp only [replaceChar, replaceChar_append]; rfl
          · simp [replaceChar, replaceChar_append, h1, h2, h3, h4, h5]

theorem escapeHtml_append (a b : List Char) :
    escapeHtml (a ++ b) = escapeHtml a ++ escapeHtml b := by
  induction a with
  | nil => rfl
  | cons c a' ih =>
    rw [List.cons_append, escapeHtml_cons, escapeHtml_cons, ih, List.append_assoc]

theorem escapeHtml_all (p : Char → Bool) (s : List Char)
    (hs : s.all p = true) (hesc : ∀ c, p c = true → (escChar c).all p = true) :
    (escapeHtml s).all p = true := by
  induction s with
  | nil => rfl
  | cons c rest ih =>
    simp only [List.all_cons, Bool.and_eq_true] at hs
    rw [escapeHtml_cons, List.all_append]
    exact Bool.and_eq_true _ _ |>.mpr ⟨hesc c hs.1, ih hs.2⟩

theorem escChar_noStar (c : Char) (hc : (!(c == '*')) = true) :
    (escChar c).all (fun d => !(d == '*')) = true := by
  unfold escChar
  split_ifs <;> first | decide | simp_all

theorem escChar_isDot (c : Char) (hc : isDot c = true) :
    (escChar c).all isDot = true := by
  unfold escChar
  split_ifs <;> first | decide | simp_all

theorem escapeHtml_ne_nil (x : List Char) (hx : x ≠ []) : escapeHtml x ≠ [] := by
  cases x with
  | nil => exact absurd rfl hx
  | cons c rest =>
    rw [escapeHtml_cons]
    have hne : escChar c ≠ [] := by unfold escChar; split_ifs <;> first | decide | simp
    cases hq : escChar c with
    | nil => exact absurd hq hne
    | cons d l => simp [hq]

theorem boldAt_not_star (c : Char) (t : List Char) (hc : c ≠ '*') : boldAt (c :: t) = none := by
  cases t with
  | nil => rfl
  | cons d r => simp [boldAt, hc]

theorem boldAt_length (s content rest2 : List Char) (h : boldAt s = some (content, rest2)) :
    rest2.length + 3 ≤ s.length := by
  match s with
  | [] => simp [boldAt] at h
  | [c] => simp [boldAt] at h
  | c :: d :: rest1 =>
    simp only [boldAt] at h
    split at h
    · have := findClose_length rest1 content rest2 h
      simp only [List.length_cons]
      omega
    · cases h

/-- Fuel irrelevance for the bold scan: any fuel at least the string
length gives the same result. -/
theorem scanBoldAux_fuel : ∀ (n : Nat) (s : List Char) (f1 f2 : Nat),
    s.length ≤ f1 → s.length ≤ f2 → s.length ≤ n →
    scanBoldAux f1 s = scanBoldAux f2 s := by
  intro n
  induction n with
  | zero =>
    intro s f1 f2 _ _ hn
    have hs : s = [] := List.length_eq_zero.mp (Nat.le_zero.mp hn)
    subst hs
    cases f1 <;> cases f2 <;> rfl
  | succ n ih =>
    intro s f1 f2 h1 h2 hn
    cases s with
    | nil => cases f1 <;> cases f2 <;> rfl
    | cons c rest =>
      simp only [List.length_cons] at h1 h2 hn
      cases f1 with
      | zero => omega
      | succ f1p =>
        cases f2 with
        | zero => omega
        | succ f2p =>
          simp only [scanBoldAux]
          cases hba : boldAt (c :: rest) with
          | some pr =>
            obtain ⟨content, rest2⟩ := pr
            have hlen := boldAt_length (c :: rest) content rest2 hba
            simp only [List.length_cons] at hlen
            show str "<strong>" ++ content ++ str "</strong>" ++ scanBoldAux f1p rest2 =
              str "<strong>" ++ content ++ str "</strong>" ++ scanBoldAux f2p rest2
            rw [ih rest2 f1p f2p (by omega) (by omega) (by omega)]
          | none =>
            show c :: scanBoldAux f1p rest = c :: scanBoldAux f2p rest
            rw [ih rest f1p f2p (by omega) (by omega) (by omega)]

theorem scanBold_fuel (f : Nat) (s : List Char) (h : s.length ≤ f) :
    scanBoldAux f s = scanBold s :=
  scanBoldAux_fuel s.length s f s.length h le_rfl le_rfl

/-- A star-free prefix passes through the bold scan unchanged. -/
theorem scanBoldAux_noStar : ∀ (a : List Char) (f : Nat) (b : List Char),
    a.all (fun c => !(c == '*')) = true →
    scanBoldAux (a.length + f) (a ++ b) = a ++ scanBoldAux f b := by
  intro a
  induction a with
  | nil => intro f b _; simp
  | cons c a' ih =>
    intro f b hall
    simp only [List.all_cons, Bool.and_eq_true] at hall
    have hc : c ≠ '*' := by simpa using hall.1
    have harith : (c :: a').length + f = (a'.length + f) + 1 := by simp; omega
    rw [harith, List.cons_append]
    simp only [scanBoldAux]
    rw [boldAt_not_star c _ hc]
    show c :: scanBoldAux (a'.length + f) (a' ++ b) = c :: a' ++ scanBoldAux f b
    rw [ih f b hall.2]
    rfl

/-- The minimal close of a star-free dot-only span is found exactly at
the closing marker. -/
theorem findClose_marker : ∀ (x b : List Char), x ≠ [] →
    x.all (fun c => isDot c && !(c == '*')) = true →
    findClose (x ++ '*' :: '*' :: b) = some (x, b) := by
  intro x
  induction x with
  | nil => intro b h _; exact absurd rfl h
  | cons c x' ih =>
    intro b _ hall
    simp only [List.all_cons, Bool.and_eq_true] at hall
    obtain ⟨⟨hdot, _⟩, hall'⟩ := hall
    rw [List.cons_append]
    simp only [findClose]
    rw [if_pos hdot]
    cases x' with
    | nil =>
      have hsc : startsClose (([] : List Char) ++ '*' :: '*' :: b) = some b := by
        simp [startsClose]
      rw [hsc]
    | cons c2 x'' =>
      have hc2 : c2 ≠ '*' := by
        simp only [List.all_cons, Bool.and_eq_true] at hall'
        simpa using hall'.1.2
      have hsc : startsClose ((c2 :: x'') ++ '*' :: '*' :: b) = none := by
        rw [List.cons_append]
        cases hxx : x'' ++ '*' :: '*' :: b with
        | nil => simp at hxx
        | cons e r => simp [startsClose, hc2]
      rw [hsc]
      rw [ih b (by simp) hall']

/-- C8: in `formatInline`, the input is HTML-escaped first and then
every non-greedy `**text**` span becomes `<strong>text</strong>`: for
any occurrence `pre ++ "**" ++ x ++ "**" ++ post` with star-free `pre`
and a non-empty star-free dot-only span `x`, the output is the escaped
prefix, the bold markup around the escaped span, and the scanned escaped
suffix. -/
theorem escape_then_bold (pre x post : List Char)
    (hpre : pre.all (fun c => !(c == '*')) = true)
    (hx : x ≠ [])
    (hxok : x.all (fun c => isDot c && !(c == '*')) = true) :
    formatInline (pre ++ str "**" ++ x ++ str "**" ++ post) =
      escapeHtml pre ++ str "<strong>" ++ escapeHtml x ++ str "</strong>" ++
        scanBold (escapeHtml post)
    ∧ formatInline (pre ++ str "**" ++ x ++ str "**" ++ post) =
        scanBold (escapeHtml (pre ++ str "**" ++ x ++ str "**" ++ post)) := by
  have hEpre : (escapeHtml pre).all (fun c => !(c == '*')) = true :=
    escapeHtml_all _ pre hpre escChar_noStar
  have hEx_ok : (escapeHtml x).all (fun c => isDot c && !(c == '*')) = true := by
    refine escapeHtml_all _ x hxok ?_
    intro c hc
    rw [Bool.and_eq_true] at hc
    have hd1 := escChar_isDot c hc.1
    have hd2 := escChar_noStar c hc.2
    rw [List.all_eq_true] at hd1 hd2 ⊢
    intro d hd
    rw [Bool.and_eq_true]
    exact ⟨hd1 d hd, hd2 d hd⟩
  have hEx_ne : escapeHtml x ≠ [] := escapeHtml_ne_nil x hx
  refine ⟨?_, rfl⟩
  show scanBold (escapeHtml (pre ++ str "**" ++ x ++ str "**" ++ post)) = _
  have hsplit : escapeHtml (pre ++ str "**" ++ x ++ str "**" ++ post) =
      escapeHtml pre ++ ('*' :: '*' :: (escapeHtml x ++ '*' :: '*' :: escapeHtml post)) := by
    rw [escapeHtml_append, escapeHtml_append, escapeHtml_append, escapeHtml_append]
    have h2 : escapeHtml (str "**") = '*' :: '*' :: [] := rfl
    rw [h2]
    simp [List.append_assoc]
  rw [hsplit]
  unfold scanBold
  rw [List.length_append]
  rw [scanBoldAux_noStar (escapeHtml pre) _ _ hEpre]
  have hT : ('*' :: '*' :: (escapeHtml x ++ '*' :: '*' :: escapeHtml post)).length
      = ((escapeHtml x ++ '*' :: '*' :: escapeHtml post).length + 1) + 1 := by simp
  rw [hT]
  simp only [scanBoldAux]
  have hb : boldAt ('*' :: '*' :: (escapeHtml x ++ '*' :: '*' :: escapeHtml post)) =
      some (escapeHtml x, escapeHtml post) := by
    show (if '*' = '*' ∧ '*' = '*' then
        findClose (escapeHtml x ++ '*' :: '*' :: escapeHtml post) else none) = _
    rw [if_pos ⟨rfl, rfl⟩]
    exact findClose_marker (escapeHtml x) (escapeHtml post) hEx_ne hEx_ok
  rw [hb]
  show escapeHtml pre ++ (str "<strong>" ++ escapeHtml x ++ str "</strong>" ++
      scanBoldAux ((escapeHtml x ++ '*' :: '*' :: escapeHtml post).length + 1)
        (escapeHtml post)) =
    escapeHtml pre ++ str "<strong>" ++ escapeHtml x ++ str "</strong>" ++
      scanBold (escapeHtml post)
  rw [scanBold_fuel ((escapeHtml x ++ '*' :: '*' :: escapeHtml post).length + 1)
    (escapeHtml post) (by simp [List.length_append]; omega)]
  simp [List.append_assoc]

/-- Witness for C8 at a concrete input mixing all five escapable
characters around and inside a bold span. -/
theorem escape_then_bold_witness :
    (str "a&b ").all (fun c => !(c == '*')) = true
    ∧ formatInline (str "a&b " ++ str "**" ++ str "c<d" ++ str "**" ++ str " e'f") =
        escapeHtml (str "a&b ") ++ str "<strong>" ++ escapeHtml (str "c<d") ++
        str "</strong>" ++ scanBold (escapeHtml (str " e'f")) :=
  ⟨by decide,
   (escape_then_bold (str "a&b ") (str "c<d") (str " e'f")
     (by decide) (by decide) (by decide)).1⟩

/-! ## Lemmas about the column scan -/

theorem dropWhile_of_head (p : Char → Bool) (y : List Char) (hy : p (y.headD 'a') = false) :
    y.dropWhile p = y := by
  cases y with
  | nil => rfl
  | cons c rest =>
    simp only [List.headD_cons] at hy
    simp [List.dropWhile, hy]

theorem jsTrim_fixed (x : List Char) (h1 : jsWs (x.headD 'a') = false)
    (h2 : jsWs (x.reverse.headD 'a') = false) : jsTrim x = x := by
  unfold jsTrim
  rw [dropWhile_of_head jsWs x h1]
  rw [dropWhile_of_head jsWs x.reverse h2]
  exact List.reverse_reverse x

theorem itemOk_parts (x : List Char) (hx : itemOk x = true) :
    x ≠ [] ∧ x.all isDot = true ∧ jsWs (x.headD 'a') = false ∧
      jsWs (x.reverse.headD 'a') = false := by
  simp only [itemOk, Bool.and_eq_true, Bool.not_eq_true', List.isEmpty_eq_false] at hx
  exact ⟨hx.1.1.1, hx.1.1.2, hx.1.2, hx.2⟩

theorem itemOk_trim (x : List Char) (hx : itemOk x = true) : jsTrim x = x := by
  obtain ⟨_, _, h3, h4⟩ := itemOk_parts x hx
  exact jsTrim_fixed x h3 h4

/-- All characters of a dot-only string survive line splitting. -/
theorem isDot_noCRLF (x : List Char) (hx : x.all isDot = true) : noCRLF x = true := by
  simp only [noCRLF, List.all_eq_true] at *
  intro c hc
  have := hx c hc
  simp only [isDot, Bool.not_eq_true', Bool.or_eq_false_iff] at this ⊢
  exact ⟨this.1.1.1, this.1.1.2⟩

theorem headD_append_ne_nil (x l : List Char) (d : Char) (hx : x ≠ []) :
    (x ++ l).headD d = x.headD d := by
  cases x with
  | nil => exact absurd rfl hx
  | cons c rest => rfl

/-- A constructed bullet line `"- " ++ x` trims to itself. -/
theorem jsTrim_bullet (x : List Char) (hx : itemOk x = true) :
    jsTrim (str "- " ++ x) = str "- " ++ x := by
  obtain ⟨hne, _, _, h4⟩ := itemOk_parts x hx
  refine jsTrim_fixed _ rfl ?_
  have hrev : (str "- " ++ x).reverse = x.reverse ++ [' ', '-'] := by
    simp [str]
  rw [hrev, headD_append_ne_nil _ _ _ (by simpa using hne)]
  exact h4

/-- A constructed heading line `"### " ++ t` trims to itself. -/
theorem jsTrim_heading (t : List Char) (ht : itemOk t = true) :
    jsTrim (str "### " ++ t) = str "### " ++ t := by
  obtain ⟨hne, _, _, h4⟩ := itemOk_parts t ht
  refine jsTrim_fixed _ rfl ?_
  have hrev : (str "### " ++ t).reverse = t.reverse ++ [' ', '#', '#', '#'] := by
    simp [str]
  rw [hrev, headD_append_ne_nil _ _ _ (by simpa using hne)]
  exact h4

theorem bulletMatch_dash (x : List Char) (hx : itemOk x = true) :
    bulletMatch (str "- " ++ x) = some x := by
  obtain ⟨hne, hdot, h3, _⟩ := itemOk_parts x hx
  have hdw : (' ' :: x).dropWhile jsWs = x := by
    rw [List.dropWhile_cons_of_pos (by decide)]
    exact dropWhile_of_head jsWs x h3
  show bulletMatch ('-' :: ' ' :: x) = some x
  simp [bulletMatch, hdw, hne, hdot, show jsWs ' ' = true from by decide]

theorem colHeadingMatch_dash (x : List Char) (_hx : itemOk x = true) :
    colHeadingMatch (str "- " ++ x) = none := by
  show colHeadingMatch ('-' :: ' ' :: x) = none
  simp only [colHeadingMatch]
  rw [if_neg (by simp [List.takeWhile])]

theorem colHeadingMatch_heading (t : List Char) (ht : itemOk t = true) :
    colHeadingMatch (str "### " ++ t) = some t := by
  obtain ⟨hne, hdot, h3, _⟩ := itemOk_parts t ht
  have hdw2 : (' ' :: t).dropWhile jsWs = t := by
    rw [List.dropWhile_cons_of_pos (by decide)]
    exact dropWhile_of_head jsWs t h3
  show colHeadingMatch ('#' :: '#' :: '#' :: ' ' :: t) = some t
  simp only [colHeadingMatch]
  rw [show ('#' :: '#' :: '#' :: ' ' :: t).takeWhile (fun c => c == '#') = ['#', '#', '#'] from
    by simp [List.takeWhile]]
  rw [show ('#' :: '#' :: '#' :: ' ' :: t).dropWhile (fun c => c == '#') = ' ' :: t from
    by simp [List.dropWhile]]
  simp [hdw2, hne, hdot, show jsWs ' ' = true from by decide]

/-- Scanning a constructed bullet line while a recognised section is
current appends the item to that section. -/
theorem colLine_bullet_actors (st : ColState) (x : List Char) (hx : itemOk x = true)
    (hcur : st.current = some (str "Actors")) :
    colLine st (str "- " ++ x) = some { st with actors := st.actors ++ [x] } := by
  obtain ⟨hne, _, _, _⟩ := itemOk_parts x hx
  unfold colLine
  rw [jsTrim_bullet x hx]
  rw [if_neg (by simp [str])]
  rw [colHeadingMatch_dash x hx, bulletMatch_dash x hx]
  simp [hcur, itemOk_trim x hx, List.isEmpty_eq_false.mpr hne]

theorem colLine_bullet_methods (st : ColState) (x : List Char) (hx : itemOk x = true)
    (hcur : st.current = some (str "Methods")) :
    colLine st (str "- " ++ x) = some { st with methods := st.methods ++ [x] } := by
  obtain ⟨hne, _, _, _⟩ := itemOk_parts x hx
  unfold colLine
  rw [jsTrim_bullet x hx]
  rw [if_neg (by simp [str])]
  rw [colHeadingMatch_dash x hx, bulletMatch_dash x hx]
  simp [hcur, itemOk_trim x hx, List.isEmpty_eq_false.mpr hne,
    show ¬(str "Methods" = str "Actors") from by decide]

theorem colLine_bullet_none (st : ColState) (x : List Char) (hx : itemOk x = true)
    (hcur : st.current = none) :
    colLine st (str "- " ++ x) = some st := by
  unfold colLine
  rw [jsTrim_bullet x hx]
  rw [if_neg (by simp [str])]
  rw [colHeadingMatch_dash x hx, bulletMatch_dash x hx]
  simp [hcur]

/-- Scanning a constructed heading line sets `current` according to the
(prototype-aware) `in` test. -/
theorem colLine_heading (st : ColState) (t : List Char) (ht : itemOk t = true) :
    colLine st (str "### " ++ t) =
      some { st with current := if inSections t then some t else none } := by
  unfold colLine
  rw [jsTrim_heading t ht]
  rw [if_neg (by simp [str])]
  rw [colHeadingMatch_heading t ht]
  simp [itemOk_trim t ht]

theorem colScan_append_some (a b : List (List Char)) (st st2 : ColState)
    (h : colScan a st = some st2) : colScan (a ++ b) st = colScan b st2 := by
  induction a generalizing st with
  | nil =>
    cases h
    rfl
  | cons l a' ih =>
    rw [List.cons_append]
    simp only [colScan] at h ⊢
    cases hcl : colLine st l with
    | none => rw [hcl] at h; cases h
    | some stm =>
      rw [hcl] at h
      exact ih stm h

theorem colScan_bullets_actors : ∀ (items : List (List Char)) (st : ColState),
    (∀ x ∈ items, itemOk x = true) → st.current = some (str "Actors") →
    colScan (items.map fun x => str "- " ++ x) st =
      some { st with actors := st.actors ++ items } := by
  intro items
  induction items with
  | nil => intro st _ _; simp [colScan]
  | cons x items' ih =>
    intro st hall hcur
    simp only [List.map_cons, colScan]
    rw [colLine_bullet_actors st x (hall x (by simp)) hcur]
    show colScan (items'.map fun x => str "- " ++ x) { st with actors := st.actors ++ [x] } = _
    rw [ih { st with actors := st.actors ++ [x] } (fun y hy => hall y (by simp [hy]))
      (by simpa using hcur)]
    simp

theorem colScan_bullets_methods : ∀ (items : List (List Char)) (st : ColState),
    (∀ x ∈ items, itemOk x = true) → st.current = some (str "Methods") →
    colScan (items.map fun x => str "- " ++ x) st =
      some { st with methods := st.methods ++ items } := by
  intro items
  induction items with
  | nil => intro st _ _; simp [colScan]
  | cons x items' ih =>
    intro st hall hcur
    simp only [List.map_cons, colScan]
    rw [colLine_bullet_methods st x (hall x (by simp)) hcur]
    show colScan (items'.map fun x => str "- " ++ x) { st with methods := st.methods ++ [x] } = _
    rw [ih { st with methods := st.methods ++ [x] } (fun y hy => hall y (by simp [hy]))
      (by simpa using hcur)]
    simp

theorem colScan_bullets_none : ∀ (items : List (List Char)) (st : ColState),
    (∀ x ∈ items, itemOk x = true) → st.current = none →
    colScan (items.map fun x => str "- " ++ x) st = some st := by
  intro items
  induction items with
  | nil => intro st _ _; rfl
  | cons x items' ih =>
    intro st hall hcur
    simp only [List.map_cons, colScan]
    rw [colLine_bullet_none st x (hall x (by simp)) hcur]
    exact ih st (fun y hy => hall y (by simp [hy])) hcur

/-- The full column scan of a constructed three-section document:
the Actors and Methods bullets are collected, the unrecognised middle
section's bullets are dropped. -/
theorem colScan_doc (aItems mItems oItems : List (List Char)) (oTitle : List Char)
    (ha : ∀ x ∈ aItems, itemOk x = true) (hm : ∀ x ∈ mItems, itemOk x = true)
    (ho : ∀ x ∈ oItems, itemOk x = true)
    (hot : itemOk oTitle = true) (hos : inSections oTitle = false) :
    colScan (str "### Actors" :: (aItems.map (fun x => str "- " ++ x) ++
        ((str "### " ++ oTitle) :: (oItems.map (fun x => str "- " ++ x) ++
          (str "### Methods" :: mItems.map (fun x => str "- " ++ x))))))
      ⟨none, [], []⟩ =
      some ⟨some (str "Methods"), aItems, mItems⟩ := by
  simp only [colScan]
  rw [show colLine ⟨none, [], []⟩ (str "### Actors") =
    some ⟨some (str "Actors"), [], []⟩ from by decide]
  show colScan (aItems.map (fun x => str "- " ++ x) ++ _) ⟨some (str "Actors"), [], []⟩ = _
  rw [colScan_append_some _ _ _ ⟨some (str "Actors"), aItems, []⟩
    (by simpa using colScan_bullets_actors aItems ⟨some (str "Actors"), [], []⟩ ha rfl)]
  simp only [colScan]
  rw [colLine_heading ⟨some (str "Actors"), aItems, []⟩ oTitle hot]
  rw [if_neg (by simp [hos])]
  show colScan (oItems.map (fun x => str "- " ++ x) ++ _) ⟨none, aItems, []⟩ = _
  rw [colScan_append_some _ _ _ ⟨none, aItems, []⟩
    (colScan_bullets_none oItems ⟨none, aItems, []⟩ ho rfl)]
  simp only [colScan]
  rw [show colLine ⟨none, aItems, []⟩ (str "### Methods") =
    some ⟨some (str "Methods"), aItems, []⟩ from by
      have := colLine_heading ⟨none, aItems, []⟩ (str "Methods") (by decide)
      simpa [show inSections (str "Methods") = true from by decide] using this]
  show colScan (mItems.map (fun x => str "- " ++ x)) ⟨some (str "Methods"), aItems, []⟩ = _
  simpa using colScan_bullets_methods mItems ⟨some (str "Methods"), aItems, []⟩ hm rfl

/-! ## Claims C1–C4 and C9: the column renderer -/

/-- C1 (code bug): the renderers are not exception-free.  A level-3
heading whose title is the inherited `Object.prototype` property name
`toString` passes the `in` test, and the following bullet's push raises
a `TypeError` (modelled as `none`).  The remaining parts of the claim do
hold on empty input: the table extractor yields the "not found" sentinel
and the risks renderer yields the fallback wrapper with no paragraphs or
list items. -/
theorem renderer_exception_on_proto_heading :
    renderRisksColumns (str "### toString\n- x") = none
    ∧ parseTable [] = none
    ∧ renderRisksColumns [] = some (str "<div class=\"risks-fallback\"></div>") :=
  ⟨by decide, by decide, by decide⟩

/-- C3 (code bug): a level-3 heading whose trimmed title is not
`"Actors"`/`"Methods"` is claimed to reset the current section to none.
For the inherited property name `valueOf` the scan instead sets
`current` to `"valueOf"`, and the following bullet is not dropped but
raises a `TypeError`. -/
theorem proto_heading_does_not_reset_current :
    colLine ⟨none, [], []⟩ (str "### valueOf") = some ⟨some (str "valueOf"), [], []⟩
    ∧ colLine ⟨none, [], []⟩ (str "### Other") = some ⟨none, [], []⟩
    ∧ renderRisksColumns (str "### valueOf\n- y") = none :=
  ⟨by decide, by decide, by decide⟩

/-- Counterexample to C2 as stated, in both of its failure modes.
First: the column scan's heading test is only `/^###\s+(.+)$/`, so a
heading of any other level — here `## Other` — does not reset the
current section; its heading line and its bullet are collected into the
still-open Actors list, and the grid renders with `<li>## Other</li>`
and `<li>x</li>` leaked into Actors (no exception is raised).  Second:
a document whose extra section is level-3 but titled with an inherited
`Object.prototype` property name (`### toString`) with a bullet raises
a `TypeError` instead of rendering the grid at all. -/
theorem actors_methods_doc_leaks_or_throws :
    renderRisksColumns (str "### Actors\n- a\n## Other\n- x\n### Methods\n- m") =
      some (gridHtml [str "a", str "## Other", str "x"] [str "m"])
    ∧ containsSub (str "<li>## Other</li>")
        (gridHtml [str "a", str "## Other", str "x"] [str "m"]) = true
    ∧ renderRisksColumns
        (str "### Actors\n- a\n### Methods\n- m\n### toString\n- x") = none :=
  ⟨by decide, by decide, by decide⟩

/-- C2 (amended): a document built from a `### Actors` section with
bullet items, another section, and a `### Methods` section with bullet
items renders the two-panel grid containing exactly the Actors and
Methods items, in source order, with nothing from the other section in
either list — provided the other section's heading is level-3 (a
heading of any other level would not reset the current section and its
content would leak into the open list) and its trimmed title passes
neither the literal key test nor the inherited-`Object.prototype`
property test (such a title with a following item would raise a
`TypeError`).  Each proviso is forced by one conjunct of
the counterexample above. -/
theorem structured_sections_render_grid (aItems mItems oItems : List (List Char))
    (oTitle : List Char)
    (hane : aItems ≠ []) (hmne : mItems ≠ [])
    (ha : ∀ x ∈ aItems, itemOk x = true) (hm : ∀ x ∈ mItems, itemOk x = true)
    (ho : ∀ x ∈ oItems, itemOk x = true)
    (hot : itemOk oTitle = true) (hos : inSections oTitle = false) :
    renderRisksColumns (joinLines (str "### Actors" :: (aItems.map (fun x => str "- " ++ x) ++
        ((str "### " ++ oTitle) :: (oItems.map (fun x => str "- " ++ x) ++
          (str "### Methods" :: mItems.map (fun x => str "- " ++ x))))))) =
      some (gridHtml aItems mItems) := by
  have hbul : ∀ (x : List Char), itemOk x = true → noCRLF (str "- " ++ x) = true := by
    intro x hx
    obtain ⟨_, hdot, _, _⟩ := itemOk_parts x hx
    simp only [noCRLF, List.all_append]
    rw [Bool.and_eq_true]
    exact ⟨by decide, isDot_noCRLF x hdot⟩
  have hnc : ∀ l ∈ str "### Actors" :: (aItems.map (fun x => str "- " ++ x) ++
      ((str "### " ++ oTitle) :: (oItems.map (fun x => str "- " ++ x) ++
        (str "### Methods" :: mItems.map (fun x => str "- " ++ x))))), noCRLF l = true := by
    intro l hl
    simp only [List.mem_cons, List.mem_append, List.mem_map] at hl
    rcases hl with rfl | ⟨x, hx, rfl⟩ | rfl | ⟨x, hx, rfl⟩ | rfl | ⟨x, hx, rfl⟩
    · decide
    · exact hbul x (ha x hx)
    · obtain ⟨_, hdot, _, _⟩ := itemOk_parts oTitle hot
      simp only [noCRLF, List.all_append]
      rw [Bool.and_eq_true]
      exact ⟨by decide, isDot_noCRLF oTitle hdot⟩
    · exact hbul x (ho x hx)
    · decide
    · exact hbul x (hm x hx)
  unfold renderRisksColumns
  rw [splitLines_joinLines _ (by simp) hnc]
  rw [colScan_doc aItems mItems oItems oTitle ha hm ho hot hos]
  show (if aItems.isEmpty || mItems.isEmpty then _ else some (gridHtml aItems mItems)) = _
  rw [if_neg (by simp [List.isEmpty_eq_false.mpr hane, List.isEmpty_eq_false.mpr hmne])]

/-- Witness for C2 (amended) at a concrete document with two Actors
items, one Methods item and an unrecognised `### Other` section whose
item does not leak. -/
theorem structured_sections_render_grid_witness :
    renderRisksColumns (joinLines (str "### Actors" ::
        ([str "a1", str "a2"].map (fun x => str "- " ++ x) ++
        ((str "### " ++ str "Other") :: ([str "o1"].map (fun x => str "- " ++ x) ++
          (str "### Methods" :: [str "m1"].map (fun x => str "- " ++ x))))))) =
      some (gridHtml [str "a1", str "a2"] [str "m1"]) :=
  structured_sections_render_grid [str "a1", str "a2"] [str "m1"] [str "o1"] (str "Other")
    (by decide) (by decide) (by decide) (by decide) (by decide) (by decide) (by decide)

/-- Counterexample to C4 as stated: a document in which both sections
end up empty is claimed to fall back to the flat rendering, but with a
`### hasOwnProperty` heading and a bullet the scan raises a `TypeError`
instead. -/
theorem empty_sections_doc_can_throw :
    renderRisksColumns (str "### hasOwnProperty\n- z") = none := by
  decide

/-- C4 (amended): whenever the line scan completes without a raised
`TypeError` and the Actors or Methods list ends up empty, the renderer
discards the structured attempt and returns exactly the flat renderer's
output over the entire original text wrapped in the fallback container —
never a partial column layout. -/
theorem missing_section_falls_back (md : List Char) (st : ColState)
    (hscan : colScan (splitLines md) ⟨none, [], []⟩ = some st)
    (hempty : st.actors = [] ∨ st.methods = []) :
    renderRisksColumns md =
      some (str "<div class=\"risks-fallback\">" ++ parseRisksMarkdown md ++ str "</div>") := by
  unfold renderRisksColumns
  rw [hscan]
  show (if st.actors.isEmpty || st.methods.isEmpty then some (fallbackHtml md) else _) = _
  rw [if_pos (by rcases hempty with h | h <;> simp [h])]
  rfl

/-- Witness for C4 at a document with Actors only: the scan succeeds,
Methods is empty, and the whole document is re-rendered flat inside the
fallback wrapper. -/
theorem missing_section_falls_back_witness :
    colScan (splitLines (str "### Actors\n- a")) ⟨none, [], []⟩ =
        some ⟨some (str "Actors"), [str "a"], []⟩
    ∧ renderRisksColumns (str "### Actors\n- a") =
        some (str "<div class=\"risks-fallback\">" ++
          parseRisksMarkdown (str "### Actors\n- a") ++ str "</div>") :=
  ⟨by decide,
   missing_section_falls_back (str "### Actors\n- a") ⟨some (str "Actors"), [str "a"], []⟩
     (by decide) (Or.inr rfl)⟩

/-- C9: the column path renders collected items plain-escaped, never
bold-expanded.  The bulleted line `  - **Risk**: data loss` inside the
`### Methods` section contributes the item text `**Risk**: data loss`;
the grid contains it as a verbatim-escaped `<li>` with its `**` markers
intact and no `<strong>` anywhere, while the flat renderer's inline
formatter would have produced `<strong>Risk</strong>` for the same
text — the asymmetry between the two paths. -/
theorem methods_item_escaped_not_bolded :
    renderRisksColumns (str "### Actors\n- a\n### Methods\n  - **Risk**: data loss") =
      some (gridHtml [str "a"] [str "**Risk**: data loss"])
    ∧ containsSub (str "<li>**Risk**: data loss</li>")
        (gridHtml [str "a"] [str "**Risk**: data loss"]) = true
    ∧ containsSub (str "<strong>")
        (gridHtml [str "a"] [str "**Risk**: data loss"]) = false
    ∧ formatInline (str "**Risk**: data loss") = str "<strong>Risk</strong>: data loss" :=
  ⟨by decide, by decide, by decide, by decide⟩

/-! ## Claim C10: heading recognition requires whitespace after the `#` run -/

/-- C10: for any line whose trimmed form starts with one to six `#`
followed immediately by a non-whitespace character, or with seven or
more `#`, neither heading regex matches: the flat renderer emits a
paragraph (or a list item when list-mode is active) instead of a
heading, and the column scan leaves the current section unchanged,
collecting the line as an item when a section is active. -/
theorem heading_requires_space (s : List Char)
    (hcond : (1 ≤ ((jsTrim s).takeWhile (fun c => c == '#')).length ∧
        ((jsTrim s).takeWhile (fun c => c == '#')).length ≤ 6 ∧
        jsWs (((jsTrim s).dropWhile (fun c => c == '#')).headD 'a') = false) ∨
      7 ≤ ((jsTrim s).takeWhile (fun c => c == '#')).length) :
    headingMatch (jsTrim s) = none
    ∧ colHeadingMatch (jsTrim s) = none
    ∧ (∀ (rest : List (List Char)) (lo lm : Bool),
        parseRisksLines (s :: rest) lo lm =
          if lm then
            (if lo then [] else str "<ul>") ++ str "<li>" ++ formatInline (jsTrim s) ++
              str "</li>" ++ parseRisksLines rest true lm
          else
            (if lo then str "</ul>" else []) ++ str "<p>" ++ formatInline (jsTrim s) ++
              str "</p>" ++ parseRisksLines rest false lm)
    ∧ (∀ a m : List (List Char), colLine ⟨none, a, m⟩ s = some ⟨none, a, m⟩)
    ∧ (∀ a m : List (List Char), colLine ⟨some (str "Actors"), a, m⟩ s =
        some ⟨some (str "Actors"), a ++ [jsTrim s], m⟩)
    ∧ (∀ a m : List (List Char), colLine ⟨some (str "Methods"), a, m⟩ s =
        some ⟨some (str "Methods"), a, m ++ [jsTrim s]⟩) := by
  have hk1 : 1 ≤ ((jsTrim s).takeWhile (fun c => c == '#')).length := by
    rcases hcond with ⟨h, _⟩ | h
    · exact h
    · omega
  have hhead : ∃ t', jsTrim s = '#' :: t' := by
    cases hq : jsTrim s with
    | nil => rw [hq] at hk1; simp [List.takeWhile] at hk1
    | cons c t' =>
      rw [hq] at hk1
      by_cases hc : c = '#'
      · exact ⟨t', by rw [hc]⟩
      · rw [List.takeWhile_cons_of_neg (by simp [hc])] at hk1
        simp at hk1
  obtain ⟨t', hts⟩ := hhead
  have htne : (jsTrim s).isEmpty = false := by rw [hts]; rfl
  have hm : headingMatch (jsTrim s) = none := by
    unfold headingMatch
    rcases hcond with ⟨_, hk6, hws⟩ | hk7
    · rw [if_pos ⟨hk1, hk6⟩]
      cases hr : (jsTrim s).dropWhile (fun c => c == '#') with
      | nil => rfl
      | cons c r =>
        rw [hr] at hws
        simp only [List.headD_cons] at hws
        simp [hws]
    · rw [if_neg (by omega)]
  have hcm : colHeadingMatch (jsTrim s) = none := by
    unfold colHeadingMatch
    rcases hcond with ⟨_, _, hws⟩ | hk7
    · by_cases h3 : ((jsTrim s).takeWhile (fun c => c == '#')).length = 3
      · rw [if_pos h3]
        cases hr : (jsTrim s).dropWhile (fun c => c == '#') with
        | nil => rfl
        | cons c r =>
          rw [hr] at hws
          simp only [List.headD_cons] at hws
          simp [hws]
      · rw [if_neg h3]
    · rw [if_neg (by omega)]
  have hb : bulletMatch (jsTrim s) = none := by
    rw [hts]
    simp [bulletMatch]
  refine ⟨hm, hcm, ?_, ?_, ?_, ?_⟩
  · intro rest lo lm
    simp only [parseRisksLines]
    rw [htne, hm, hb]
    cases lm <;> simp
  · intro a m
    simp only [colLine]
    rw [htne, hcm]
    simp
  · intro a m
    simp only [colLine]
    rw [htne, hcm, hb]
    simp [htne]
  · intro a m
    simp only [colLine]
    rw [htne, hcm, hb]
    simp [htne, show ¬(str "Methods" = str "Actors") from by decide]

/-- Witness for C10 at `###Actors` (level-3 marker with no space): not a
heading in either renderer; rendered as a paragraph by the flat path and
collected as an item by the column path. -/
theorem heading_requires_space_witness :
    (headingMatch (jsTrim (str "###Actors")) = none
      ∧ colHeadingMatch (jsTrim (str "###Actors")) = none)
    ∧ parseRisksLines [str "###Actors"] false false =
        str "<p>" ++ formatInline (jsTrim (str "###Actors")) ++ str "</p>" ++
          parseRisksLines [] false false
    ∧ colLine ⟨some (str "Actors"), [], []⟩ (str "###Actors") =
        some ⟨some (str "Actors"), [jsTrim (str "###Actors")], []⟩ := by
  have h := heading_requires_space (str "###Actors") (by decide)
  refine ⟨⟨h.1, h.2.1⟩, ?_, ?_⟩
  · have := h.2.2.1 [] false false
    simpa using this
  · have := h.2.2.2.2.1 [] []
    simpa using this

end Anproto
